import Mathlib

/-!
Shallow embedding of the algorithmic core of the s3a repository
(Semi-Supervised Semantic Annotator), together with proofs about the
behaviour its specification claims.

Embedded components:
* `S3A.Undo`      — the generator-based action stack of `cdef/undo.py`
  (`_FRAction`, `FRActionStack`: do/undo, grouping, redo flushing,
  savepoints).
* `S3A.ProcWrap`  — the interactive run wrapper `FRImgProcWrapper.run`
  of `s3a/procwrapper.py`.
* `S3A.AlgClctn`  — `AlgCollection.addProcess` and the name-resolution
  part of `AlgCollection.parseProcName` of
  `s3a/parameditors/algcollection.py`.
* `S3A.ImageProc` — `format_vertices` and the crop-window bound
  computation (`getClippedBbox` of `s3a/generalutils.py` as used by
  `crop_to_local_area` of `s3a/processing/algorithms/imageproc.py`).
* `S3A.TableField` — `VerticesPlugin.runOnComponent` of
  `s3a/plugins/tablefield.py`.

Python sequences are modelled as Lean lists, `collections.deque` as a
list whose head is the deque's left end, numpy images/masks as functions
from row/column indices (with the shape carried separately), Python
exceptions as `Except`, and in-place mutation as explicit state passing.
-/

namespace S3A
namespace Undo

/-- Exceptions that the action-stack code can raise:
`FRUndoStackError('Nothing to redo')`, `FRUndoStackError('Nothing to undo')`,
Python `AttributeError`/`TypeError` from touching a deleted or never-created
`_runner`, and Python `IndexError` from indexing an empty deque. -/
inductive StackErr where
  | nothingToRedo
  | nothingToUndo
  | runnerMissing
  | indexError
deriving DecidableEq, Repr

/-- `_FRAction` of `cdef/undo.py`.

A base action wraps a two-phase generator: `doEff` is the code before the
`yield` (the "do" block) and `undoEff` the code after it (the "undo" block),
both acting on an application state `σ`.  `treatAsUndo` is the flag of the
same name; `hasRunner` records whether `self._runner` currently holds a
generator suspended at the `yield` (it is deleted after the undo block runs
and is `None` when the action is freshly constructed).

A `compound` action is the `_FRAction(grpAct, treatAsUndo=True)` appended by
`FRActionStack.group`: its generator `grpAct` iterates the buffered actions
twice (`for _ in range(2): for act in newActBuffer: act.do(); yield`), and
because it is constructed with `treatAsUndo=True` its `forward` and
`backward` methods are swapped. -/
inductive FRAction (σ : Type) where
  | base (doEff undoEff : σ → σ) (treatAsUndo : Bool) (hasRunner : Bool)
  | compound (buffer : List (FRAction σ)) (treatAsUndo : Bool) (hasRunner : Bool)

/-- The `treatAsUndo` attribute of an action. -/
def FRAction.treatAsUndo {σ : Type} : FRAction σ → Bool
  | .base _ _ t _ => t
  | .compound _ t _ => t

mutual
/-- `_FRAction.do`.

For a base action, `do` dispatches on `treatAsUndo`:
* `False` → `forward()`: create a fresh runner, set `treatAsUndo = True`,
  run the do block (`next(self._runner)` up to the `yield`);
* `True` → `backward()`: set `treatAsUndo = False`, resume the runner
  (running the undo block; `StopIteration` is swallowed), then delete the
  runner.  Resuming a missing runner raises.

For the compound group action the two instance methods were swapped at
construction, so `do` with `treatAsUndo = True` calls the *class* `forward`
body: it builds a fresh `grpAct` runner, sets `treatAsUndo = True` (leaving
it `True`), and runs the first loop of `grpAct`, i.e. `act.do()` on every
buffered action in order.  With `treatAsUndo = False` (unreachable in
practice) it would call the class `backward` body: set `treatAsUndo = False`
and resume the suspended runner, i.e. run the second loop of `grpAct`. -/
def FRAction.doAction {σ : Type} : FRAction σ → σ → Except StackErr (FRAction σ × σ)
  | .base doEff undoEff t hasR, s =>
    if t then
      if hasR then .ok (.base doEff undoEff false false, undoEff s)
      else .error .runnerMissing
    else
      .ok (.base doEff undoEff true true, doEff s)
  | .compound buffer t hasR, s =>
    if t then
      (FRAction.doActionList buffer s).map fun p => (.compound p.1 true true, p.2)
    else
      if hasR then
        (FRAction.doActionList buffer s).map fun p => (.compound p.1 false false, p.2)
      else .error .runnerMissing

/-- One loop of `grpAct`: `for act in newActBuffer: act.do()`, threading the
application state and the actions' own mutated fields. -/
def FRAction.doActionList {σ : Type} :
    List (FRAction σ) → σ → Except StackErr (List (FRAction σ) × σ)
  | [], s => .ok ([], s)
  | a :: rest, s =>
    match FRAction.doAction a s with
    | .ok (a', s') =>
      (FRAction.doActionList rest s').map fun p => (a' :: p.1, p.2)
    | .error e => .error e
end

/-- `deque.rotate(-1)`: the leftmost element moves to the right end. -/
def rotateLeft1 {α : Type} : List α → List α
  | [] => []
  | a :: rest => rest ++ [a]

/-- `deque.rotate(1)`: the rightmost element moves to the left end. -/
def rotateRight1 {α : Type} (l : List α) : List α :=
  match l.reverse with
  | [] => []
  | a :: rest => a :: rest.reverse

/-- `FRActionStack.canUndo` on the raw `actions` deque:
`self.actions[-1].treatAsUndo`, with `IndexError` giving `False`. -/
def canUndoL {σ : Type} (actions : List (FRAction σ)) : Bool :=
  match actions.getLast? with
  | none => false
  | some a => a.treatAsUndo

/-- `FRActionStack.canRedo` on the raw `actions` deque:
`not self.actions[0].treatAsUndo`, with `IndexError` giving `False`. -/
def canRedoL {σ : Type} (actions : List (FRAction σ)) : Bool :=
  match actions.head? with
  | none => false
  | some a => !a.treatAsUndo

/-- `FRActionStack.flushUnusedRedos`: pop from the left while the leftmost
action has `treatAsUndo == False`. -/
def flushUnusedRedosL {σ : Type} (actions : List (FRAction σ)) : List (FRAction σ) :=
  actions.dropWhile fun a => !a.treatAsUndo

/-- `FRActionStack.processAct`: run `self.actions[-1].do()`, keeping the
mutated action in place.  (The `overrideBuffer(act)` around the call only
redirects appends of *nested* undoables into a throwaway deque and restores
`self.actions` afterwards; none of the embedded actions append to the stack,
so it has no observable effect here.)  Exceptions propagate unchanged. -/
def processActL {σ : Type} (actions : List (FRAction σ)) (s : σ) :
    Except StackErr (List (FRAction σ) × σ) :=
  match actions.getLast? with
  | none => .error .indexError
  | some act =>
    (act.doAction s).map fun p => (actions.dropLast ++ [p.1], p.2)

/-- `FRActionStack.redo`: if `canRedo`, rotate the deque by `-1` and process
the (now rightmost) action; otherwise raise `Nothing to redo`. -/
def redoL {σ : Type} (actions : List (FRAction σ)) (s : σ) :
    Except StackErr (List (FRAction σ) × σ) :=
  if canRedoL actions then processActL (rotateLeft1 actions) s
  else .error .nothingToRedo

/-- `FRActionStack.undo`: if `canUndo`, process the rightmost action and then
rotate the deque by `1`; otherwise raise `Nothing to undo`. -/
def undoL {σ : Type} (actions : List (FRAction σ)) (s : σ) :
    Except StackErr (List (FRAction σ) × σ) :=
  if canUndoL actions then
    (processActL actions s).map fun p => (rotateRight1 p.1, p.2)
  else .error .nothingToUndo

/-- The body of the wrapper produced by the `FRActionStack.undoable`
decorator, for a freshly constructed action `a`:
`self.actions.appendleft(action); ret = self.redo(); self.flushUnusedRedos()`. -/
def performActionL {σ : Type} (actions : List (FRAction σ)) (a : FRAction σ) (s : σ) :
    Except StackErr (List (FRAction σ) × σ) :=
  (redoL (a :: actions) s).map fun p => (flushUnusedRedosL p.1, p.2)

/-- `FRActionStack` of `cdef/undo.py` (constructed with `maxlen=None`, so the
deques are unbounded).  `actions` is the action deque; `undos` is the `undos`
deque, which only `FRActionStack.append` ever appends to — it stores the
identities of appended objects, modelled as tokens, and no code path in the
repository calls `append`; `savepoint` is `_savepoint`, with `none` for
`EMPTY` and `some t` for the identity token of a stored action.  The unused
`_redos` deque and the do/undo callbacks (no-ops by default) are omitted. -/
structure FRActionStack (σ : Type) where
  actions : List (FRAction σ)
  undos : List Nat := []
  savepoint : Option Nat := none

/-- `FRActionStack.canUndo`. -/
def FRActionStack.canUndo {σ : Type} (st : FRActionStack σ) : Bool :=
  canUndoL st.actions

/-- `FRActionStack.canRedo`. -/
def FRActionStack.canRedo {σ : Type} (st : FRActionStack σ) : Bool :=
  canRedoL st.actions

/-- `FRActionStack.redo` at the stack level. -/
def FRActionStack.redo {σ : Type} (st : FRActionStack σ) (s : σ) :
    Except StackErr (FRActionStack σ × σ) :=
  (redoL st.actions s).map fun p => ({ st with actions := p.1 }, p.2)

/-- `FRActionStack.undo` at the stack level. -/
def FRActionStack.undo {σ : Type} (st : FRActionStack σ) (s : σ) :
    Except StackErr (FRActionStack σ × σ) :=
  (undoL st.actions s).map fun p => ({ st with actions := p.1 }, p.2)

/-- Calling a function wrapped by `stack.undoable(...)` with a fresh action. -/
def FRActionStack.performAction {σ : Type} (st : FRActionStack σ) (a : FRAction σ)
    (s : σ) : Except StackErr (FRActionStack σ × σ) :=
  (performActionL st.actions a s).map fun p => ({ st with actions := p.1 }, p.2)

/-- The `with stack.group(desc):` body: every wrapped call inside the context
goes through `appendleft`/`redo`/`flushUnusedRedos` on the *fresh buffer*
deque that `overrideBuffer` installed in place of `self.actions`. -/
def groupBody {σ : Type} :
    List (FRAction σ) → List (FRAction σ) → σ → Except StackErr (List (FRAction σ) × σ)
  | [], buffer, s => .ok (buffer, s)
  | a :: rest, buffer, s =>
    match performActionL buffer a s with
    | .ok (buffer', s') => groupBody rest buffer' s'
    | .error e => .error e

/-- `FRActionStack.group(desc)` used as a context manager around the calls
that create `bodyActs`: the buffered deque is built by the body, the original
`actions` deque is restored, and
`self.actions.append(_FRAction(grpAct, treatAsUndo=True))` appends the
compound action (fresh, so without a runner). -/
def FRActionStack.group {σ : Type} (st : FRActionStack σ) (bodyActs : List (FRAction σ))
    (s : σ) : Except StackErr (FRActionStack σ × σ) :=
  (groupBody bodyActs [] s).map fun p =>
    ({ st with actions := st.actions ++ [.compound p.1 true false] }, p.2)

/-- `FRActionStack.setSavepoint`:
`if self.canUndo: self._savepoint = self.undos[-1] else: self._savepoint = EMPTY`.
Indexing the empty `undos` deque raises `IndexError`. -/
def FRActionStack.setSavepoint {σ : Type} (st : FRActionStack σ) :
    Except StackErr (FRActionStack σ) :=
  if st.canUndo then
    match st.undos.getLast? with
    | none => .error .indexError
    | some t => .ok { st with savepoint := some t }
  else .ok { st with savepoint := none }

/-- `FRActionStack.hasChanged`:
`cmpAction = self.undos[-1] if self.canUndo else EMPTY;
return self._savepoint is not cmpAction` — an identity comparison, modelled
on the identity tokens. -/
def FRActionStack.hasChanged {σ : Type} (st : FRActionStack σ) :
    Except StackErr Bool :=
  if st.canUndo then
    match st.undos.getLast? with
    | none => .error .indexError
    | some t => .ok (decide (st.savepoint ≠ some t))
  else .ok (decide (st.savepoint ≠ none))

/-- A concrete application state for exercising the stack: one boolean flag
per action index. -/
abbrev FlagState : Type := Nat → Bool

/-- An `_FRAction` whose do block sets flag `i` and whose undo block clears
it — a sub-action whose do/undo pair is idempotent and order-independent,
exactly the kind the `group` docstring is written for. -/
def mkFlagAction (i : Nat) (t hasR : Bool) : FRAction FlagState :=
  .base (fun s => Function.update s i true) (fun s => Function.update s i false) t hasR

/-- A freshly constructed flag action (not yet done, no runner). -/
def flagAction (i : Nat) : FRAction FlagState := mkFlagAction i false false

/-- A flag action that has been done: `treatAsUndo` set, runner suspended at
the `yield`. -/
def doneFlagAction (i : Nat) : FRAction FlagState := mkFlagAction i true true

/-- The all-clear state. -/
def flagsOff : FlagState := fun _ => false

end Undo

namespace ProcWrap

/-- A greyscale image, as a list of pixel rows. -/
abbrev Image : Type := List (List Nat)

/-- A binary (boolean) mask, as a list of pixel rows.  `prevCompMask` arrives
as (or is converted to) a boolean array, so `astype(bool)` is the identity on
it. -/
abbrev Mask : Type := List (List Bool)

/-- `np.zeros(image.shape[:2], bool)`. -/
def zerosMask (h w : Nat) : Mask :=
  List.replicate h (List.replicate w false)

/-- The value of `FRImgProcWrapper.run`: the returned output mask, plus
whether `warn(...)` fired during the call. -/
structure RunOutcome where
  output : Mask
  warned : Bool
deriving DecidableEq, Repr

/-- `FRImgProcWrapper.run` of `s3a/procwrapper.py`.

`processorRun` stands for `self.processor.run(newIo, force=True)`: it
receives the `prevCompMask` entry of the `ImageIO` and the `noPrevMask`
flag (the image and the defaulted `fgVerts`/`bgVerts` are part of its
closure) and either returns the result's `image` entry — already collapsed
to a boolean mask, as `outImg.astype(bool)` followed by the channel-wise
`bitwise_or` reduction produces — or raises.

* A missing image raises `FRAlgProcessorError('Cannot run processor without
  an image')` before anything runs.
* A missing previous mask is replaced by `np.zeros(image.shape[:2], bool)`
  with `noPrevMask=True`.
* An exception from the processor is caught: `warn(...)` fires and the
  result is `ImageIO(image=kwargs['prevCompMask'])`, so the returned mask is
  the previous component mask itself. -/
def FRImgProcWrapper.run (processorRun : Mask → Bool → Except String Mask)
    (image : Option Image) (prevCompMask : Option Mask) :
    Except String RunOutcome :=
  match image with
  | none => .error "Cannot run processor without an image"
  | some img =>
    let maskAndFlag : Mask × Bool :=
      match prevCompMask with
      | none => (zerosMask img.length ((img.headD []).length), true)
      | some m => (m, false)
    match processorRun maskAndFlag.1 maskAndFlag.2 with
    | .ok res => .ok ⟨res, false⟩
    | .error _ => .ok ⟨maskAndFlag.1, true⟩

end ProcWrap

namespace AlgClctn

/-- A value stored in `AlgCollection.topProcs` / `primitiveProcs`
(`t.Dict[str, t.Union[ProcessStage, t.List[str]]]`): either a process object
kept directly (an `AtomicProcess`, identified by a token) or the serialized
stage-name list of a nested process. -/
inductive RegVal where
  | procObj (token : Nat)
  | stageList (names : List String)
deriving DecidableEq, Repr

/-- A `ProcessStage`: an `AtomicProcess` (no sub-stages — iterating it yields
nothing) or a `NestedProcess` with its ordered sub-stages.  `token`
identifies the concrete process object. -/
inductive ProcStage where
  | atomic (name : String) (token : Nat)
  | nested (name : String) (stages : List ProcStage)

/-- `proc.name`. -/
def ProcStage.name : ProcStage → String
  | .atomic n _ => n
  | .nested n _ => n

/-- `proc.stages` as iterated by `for stage in proc` (empty for an atomic
process). -/
def ProcStage.stages : ProcStage → List ProcStage
  | .atomic _ _ => []
  | .nested _ sts => sts

/-- The single registry entry recorded for a process:
`{proc.name: proc}` for an `AtomicProcess`, and
`proc.saveStateFlattened()` for a nested process — modelled, per the
registry value type `t.Union[ProcessStage, t.List[str]]` declared in
`algcollection.py` and the comment that sub-stages are added by the
recursion rather than by this dict, as the one-entry mapping from the
process name to its serialized stage-name list. -/
def ProcStage.saveVal : ProcStage → RegVal
  | .atomic _ tok => .procObj tok
  | .nested _ sts => .stageList (sts.map ProcStage.name)

/-- A Python dict with string keys, as an insertion-ordered association
list. -/
abbrev Registry : Type := List (String × RegVal)

/-- `d[k]` / `d.get(k)`. -/
def Registry.find (d : Registry) (k : String) : Option RegVal :=
  (d.find? fun e => e.1 == k).map Prod.snd

/-- `d.update({k: v})`: replace the value in place if `k` is present,
otherwise append the new entry. -/
def Registry.update : Registry → String → RegVal → Registry
  | [], k, v => [(k, v)]
  | e :: rest, k, v =>
    if e.1 == k then (k, v) :: rest else e :: Registry.update rest k v

/-- The mutable state of an `AlgCollection` touched by `addProcess`. -/
structure Collection where
  topProcs : Registry
  primitiveProcs : Registry
deriving DecidableEq, Repr

/-- The registry selected by the `top` flag (`addDict`). -/
def Collection.sel (c : Collection) (top : Bool) : Registry :=
  if top then c.topProcs else c.primitiveProcs

/-- Write back the registry selected by the `top` flag. -/
def Collection.setSel (c : Collection) (top : Bool) (d : Registry) : Collection :=
  if top then { c with topProcs := d } else { c with primitiveProcs := d }

mutual
/-- `AlgCollection.addProcess(proc, top, force)`:

```
addDict = self.topProcs if top else self.primitiveProcs
saveObj = {proc.name: proc} if isinstance(proc, AtomicProcess)
          else proc.saveStateFlattened()
if force or proc.name not in addDict:
    addDict.update(saveObj)
for stage in proc:
    # Don't recurse 'top', since it should only hold the directly passed process
    self.addProcess(stage, False, force)
```
-/
def addProcess (c : Collection) (p : ProcStage) (top force : Bool) : Collection :=
  let addDict := c.sel top
  let addDict' :=
    if force || (addDict.find p.name).isNone then addDict.update p.name p.saveVal
    else addDict
  addProcessList (c.setSel top addDict') p.stages force
termination_by sizeOf p + 1
decreasing_by cases p <;> simp [ProcStage.stages] <;> omega

/-- The `for stage in proc` recursion of `addProcess`. -/
def addProcessList (c : Collection) : List ProcStage → Bool → Collection
  | [], _ => c
  | st :: rest, force => addProcessList (addProcess c st false force) rest force
termination_by l _ => sizeOf l
decreasing_by
  all_goals simp
  all_goals have h1 : 1 ≤ sizeOf rest := by cases rest <;> simp <;> omega
  all_goals omega
end

mutual
/-- The name of a process stage together with the names of all stages
reachable through its (recursive) sub-stages. -/
def ProcStage.allNames : ProcStage → List String
  | .atomic n _ => [n]
  | .nested n sts => n :: allNamesList sts
termination_by p => sizeOf p

/-- `allNames` over a stage list. -/
def allNamesList : List ProcStage → List String
  | [] => []
  | st :: rest => st.allNames ++ allNamesList rest
termination_by l => sizeOf l
end

/-- The names of every (recursive) sub-stage of a process, its own name not
included. -/
def ProcStage.subNames (p : ProcStage) : List String := allNamesList p.stages

/-- The environment `AlgCollection.parseProcName` resolves names in:
the two registries, the configured `includeModules` list, and two oracles
for the reflective lookups performed by the external world —
`qualname name` is `parseProcQualname` (a `pydoc.locate`-based import of the
name, wrapped into a process) and `moduleProc m name` is
`parseProcModule(m, name)` (a formatted-name scan of module `m`'s members);
`V` is the type of resolved processes. -/
structure ResolveEnv (V : Type) where
  topProcs : List (String × V)
  primitiveProcs : List (String × V)
  includeModules : List String
  qualname : String → Option V
  moduleProc : String → String → Option V

/-- `dict.get` on a registry snapshot used by `parseProcName`. -/
def lookupProc {V : Type} (d : List (String × V)) (k : String) : Option V :=
  (d.find? fun e => e.1 == k).map Prod.snd

/-- `AlgCollection.searchModulesForProc`: try `parseProcModule` for each
module of `includeModules` in order and keep the first hit. -/
def searchModulesForProc {V : Type} (env : ResolveEnv V) (procName : String) :
    Option V :=
  go env.includeModules
where
  go : List String → Option V
    | [] => none
    | m :: rest =>
      match env.moduleProc m procName with
      | some v => some v
      | none => go rest

/-- The name-resolution core of `AlgCollection.parseProcName(procName,
topFirst)` (`algcollection.py` lines 369–399): `searchDicts` is
`[primitiveProcs, topProcs]`, reversed when `topFirst`; the search functions
are tried in order — `searchDicts[0].get(procName, searchDicts[1].get(procName))`,
then `parseProcQualname`, then `searchModulesForProc` — and if every one
returns `None` the call raises `ValueError(f'Process "{procName}" not
recognized')`.  What the caller then does with the resolved value (re-parsing
a stage list, deep-copying a `ProcessStage`, re-registering it) is outside
this function. -/
def parseProcNameResolve {V : Type} (env : ResolveEnv V) (procName : String)
    (topFirst : Bool) : Except String V :=
  let d0 := if topFirst then env.topProcs else env.primitiveProcs
  let d1 := if topFirst then env.primitiveProcs else env.topProcs
  match
    match lookupProc d0 procName with
    | some v => some v
    | none =>
      match lookupProc d1 procName with
      | some v => some v
      | none =>
        match env.qualname procName with
        | some v => some v
        | none => searchModulesForProc env procName
  with
  | some v => .ok v
  | none => .error ("Process \"" ++ procName ++ "\" not recognized")

end AlgClctn

namespace ImageProc

/-- `PRJ_ENUMS.HISTORY_UNSPECIFIED`: per the `procCache` docstring in
`imageproc.py`, `0 = unspecified`. -/
def UNSPEC : Nat := 0

/-- `PRJ_ENUMS.HISTORY_BACKGROUND` (`1 = background`). -/
def BGND : Nat := 1

/-- `PRJ_ENUMS.HISTORY_FOREGROUND` (`2 = foreground`). -/
def FGND : Nat := 2

/-- An `XYVertices` array: `(x, y)` points plus the `connected` flag. -/
structure XYVertices where
  pts : List (Int × Int)
  connected : Bool := true

/-- `verts.empty`: no points. -/
def XYVertices.empty (v : XYVertices) : Bool := v.pts.isEmpty

/-- A grayscale history mask as a function of (row, column); pixels outside
the image shape are irrelevant. -/
abbrev HistMask : Type := Nat → Nat → Nat

/-- A boolean component mask as a function of (row, column). -/
abbrev CompMask : Type := Nat → Nat → Bool

/-- `np.any(mask)` over an `h × w` array. -/
def npAny (h w : Nat) (m : HistMask) : Bool :=
  decide (∃ r ∈ Finset.range h, ∃ c ∈ Finset.range w, m r c ≠ 0)

/-- The pixel-membership function of a rasterizer: given the polygon's
vertex list, whether `cv.fillPoly` paints the pixel at (row, column). -/
abbrev FillFn : Type := List (Int × Int) → Nat → Nat → Bool

/-- `cv.fillPoly` membership for an axis-aligned rectangle given by its
corner vertices: OpenCV fills every pixel between the minimum and maximum
corner inclusive in each axis.  (Used only with rectangular vertex lists,
such as the square of the 10×10 scenario; for general polygons OpenCV's
scan-line rasterization is not modelled.) -/
def fillPolyRect : FillFn := fun pts r c =>
  match pts with
  | [] => false
  | p :: rest =>
    let xs := (p :: rest).map Prod.fst
    let ys := (p :: rest).map Prod.snd
    decide (xs.foldl min p.1 ≤ (c : Int) ∧ (c : Int) ≤ xs.foldl max p.1 ∧
            ys.foldl min p.2 ≤ (r : Int) ∧ (r : Int) ≤ ys.foldl max p.2)

/-- The fields of the `ProcessIO` returned by `format_vertices`, together
with the value written into `procCache["mask"]`. -/
structure FormatVerticesOut where
  foregroundVertices : XYVertices
  backgroundVertices : XYVertices
  asForeground : Bool
  historyMask : HistMask
  oldComponentMask : CompMask
  unformattedOldComponentMask : CompMask
  cacheMaskOut : HistMask
  boundSlices : (Nat × Nat) × (Nat × Nat)

/-- `format_vertices` of `s3a/processing/algorithms/imageproc.py`.

Parameters beyond the Python signature: `fill` is the `cv.fillPoly`
rasterizer (pixel membership), `ctfb` is `cornersToFullBoundary` of
`s3a/generalutils.py` (dense boundary interpolation, kept abstract), `h`/`w`
are `image.shape[:2]`, and `cacheMask` is the incoming `procCache["mask"]`
(assumed image-shaped, as on repeated runs over one component).

Faithful steps:
1. `_historyMask` starts as zeros when `firstRun or not keepVerticesHistory
   or not np.any(procCache["mask"])`, else as a copy of the cache;
2. `cv.fillPoly` paints the background vertices with `HISTORY_BACKGROUND`
   and then the foreground vertices with `HISTORY_FOREGROUND`, each only if
   non-empty and `connected`;
3. `useFullBoundary` replaces each non-empty vertex list by its dense
   boundary;
4. `procCache["mask"] = _historyMask`; `curHistory` is a copy;
5. if the (converted) foreground is empty and the background is not, the
   edit is inverted: foreground/background labels swap in `curHistory`, the
   background vertices become the foreground ones, and the component mask
   handed downstream is complemented (`asForeground = False`);
6. `boundSlices` spans the whole image: `(slice(0, h), slice(0, w))`. -/
def format_vertices (fill : FillFn) (ctfb : XYVertices → XYVertices)
    (h w : Nat) (foregroundVertices backgroundVertices : XYVertices)
    (oldComponentMask : CompMask) (firstRun : Bool) (cacheMask : HistMask)
    (useFullBoundary : Bool := true) (keepVerticesHistory : Bool := true) :
    FormatVerticesOut :=
  let hist0 : HistMask :=
    if firstRun || !keepVerticesHistory || !npAny h w cacheMask then fun _ _ => 0
    else cacheMask
  let hist1 : HistMask :=
    if !backgroundVertices.empty && backgroundVertices.connected then
      fun r c => if fill backgroundVertices.pts r c then BGND else hist0 r c
    else hist0
  let hist2 : HistMask :=
    if !foregroundVertices.empty && foregroundVertices.connected then
      fun r c => if fill foregroundVertices.pts r c then FGND else hist1 r c
    else hist1
  let fg' :=
    if useFullBoundary && !foregroundVertices.empty then ctfb foregroundVertices
    else foregroundVertices
  let bg' :=
    if useFullBoundary && !backgroundVertices.empty then ctfb backgroundVertices
    else backgroundVertices
  let invert := fg'.empty && !bg'.empty
  let curHistory : HistMask :=
    if invert then
      fun r c =>
        if hist2 r c = FGND then BGND
        else if hist2 r c = BGND then FGND
        else hist2 r c
    else hist2
  let fgOut := if invert then bg' else fg'
  let bgOut := if invert then { pts := [], connected := true } else bg'
  let asForeground := !invert
  let adjustedCompMask : CompMask :=
    if asForeground then oldComponentMask else fun r c => !oldComponentMask r c
  { foregroundVertices := fgOut
    backgroundVertices := bgOut
    asForeground := asForeground
    historyMask := curHistory
    oldComponentMask := adjustedCompMask
    unformattedOldComponentMask := oldComponentMask
    cacheMaskOut := hist2
    boundSlices := ((0, h), (0, w)) }

/-- Connected corner vertices of a 10×10 pixel square whose top-left pixel
is `(x0, y0)`: the corners span 9 pixels in each axis, so the filled square
covers exactly 10×10 pixels. -/
def squareXY (x0 y0 : Nat) : XYVertices :=
  { pts := [((x0 : Int), (y0 : Int)), ((x0 : Int) + 9, (y0 : Int)),
            ((x0 : Int) + 9, (y0 : Int) + 9), ((x0 : Int), (y0 : Int) + 9)]
    connected := true }

/-- `XYVertices()`: the empty vertex array. -/
def emptyXY : XYVertices := { pts := [], connected := true }

/-- `np.clip(v, lo, hi)` on a scalar. -/
def clipInt (v lo hi : Int) : Int := max lo (min v hi)

/-- `getClippedBbox(arrShape, bbox, margin)` of `s3a/generalutils.py`:
subtract `margin` from the min corner, add `margin + 1` to the max corner,
then `np.clip(bbox, 0, arrShape[::-1])` — x-coordinates are clipped to
`[0, w]` and y-coordinates to `[0, h]` for an `(h, w)` array shape.
The bbox is `((minX, minY), (maxX, maxY))`. -/
def getClippedBbox (h w : Nat) (bbox : (Int × Int) × (Int × Int)) (margin : Int) :
    (Int × Int) × (Int × Int) :=
  ((clipInt (bbox.1.1 - margin) 0 w, clipInt (bbox.1.2 - margin) 0 h),
   (clipInt (bbox.2.1 + margin + 1) 0 w, clipInt (bbox.2.2 + margin + 1) 0 h))

/-- `np.vstack([verts.min(0), verts.max(0)])` for a non-empty vertex list
`v :: vs`: the componentwise min and max corners. -/
def vertsMinMax (v : Int × Int) (vs : List (Int × Int)) :
    (Int × Int) × (Int × Int) :=
  ((((vs.map Prod.fst).foldl min v.1), ((vs.map Prod.snd).foldl min v.2)),
   (((vs.map Prod.fst).foldl max v.1), ((vs.map Prod.snd).foldl max v.2)))

/-- The coordinate part of `getCroppedImage(image, allVerts, margin)`
(`getCroppedImg` of `s3a/generalutils.py`): the clipped bounding box of the
vertices.  `np.vstack`/`min` on an empty vertex array raises, hence the
`Option`. -/
def getCroppedImageBounds (h w : Nat) (allVerts : List (Int × Int))
    (margin : Int) : Option ((Int × Int) × (Int × Int)) :=
  match allVerts with
  | [] => none
  | v :: vs => some (getClippedBbox h w (vertsMinMax v vs) margin)

/-- The `boundSlices` computed by `crop_to_local_area`
(`boundSlices = slice(*bounds[:, 1]), slice(*bounds[:, 0])`): the row slice
from the y-coordinates and the column slice from the x-coordinates of the
clipped bounds, as ((rowStart, rowStop), (colStart, colStop)); `allVerts` is
whichever vertex collection the `reference` branch selected (image corners,
ROI, component, or viewbox stack) and `margin` the rounded percentage
margin.  The optional downscaling by `resizeRatio` happens after these
slices are taken and does not change them. -/
def cropToLocalAreaBoundSlices (h w : Nat) (allVerts : List (Int × Int))
    (margin : Int) : Option ((Int × Int) × (Int × Int)) :=
  (getCroppedImageBounds h w allVerts margin).map fun b =>
    ((b.1.2, b.2.2), (b.1.1, b.2.1))

end ImageProc

namespace TableField

/-- `VerticesPlugin.runOnComponent(component)` of `s3a/plugins/tablefield.py`.

Types: `ι` is the image type, `κ` the type of the module-level `procCache`
dict (`s3a.processing.algorithms.imageproc.procCache`), `V` the
`ComplexXYVertices` type of the component's vertices and `M` the mask type
returned by the processor.  `isEmptyV` is `ComplexXYVertices.isEmpty`,
`fromBinaryMask` is `ComplexXYVertices.fromBinaryMask`, and
`procRun img cache` is `self.curProcessor.run(image=img, ...)` returning the
result mask (the dict's `image` entry) together with the cache as the
processor left it.

Control flow of the source:
* `img is None or component[RTF.VERTICES].isEmpty()` → return the component
  unchanged (the cache is never touched);
* otherwise `oldProcCache = imageproc.procCache.copy()` is taken, the
  processor runs, and the `finally` block re-binds
  `imageproc.procCache = oldProcCache` on *every* exit path — the stages
  re-bind `procCache["mask"]` to fresh arrays rather than mutating the
  stored ones in place, so restoring the shallow copy restores the pre-call
  contents;
* an exception from the run is swallowed and the original vertices are
  kept; on success the vertices are replaced by
  `ComplexXYVertices.fromBinaryMask(result)`.

The returned pair is (module cache after the call, vertices of the returned
component). -/
def runOnComponent {ι κ V M : Type} (isEmptyV : V → Bool)
    (fromBinaryMask : M → V) (procRun : ι → κ → Except Unit (M × κ))
    (image : Option ι) (verts : V) (procCache : κ) : κ × V :=
  match image with
  | none => (procCache, verts)
  | some img =>
    if isEmptyV verts then (procCache, verts)
    else
      let oldProcCache := procCache
      match procRun img procCache with
      | .error _ => (oldProcCache, verts)
      | .ok (m, _cacheLeftByRun) => (oldProcCache, fromBinaryMask m)

end TableField
end S3A

/-! ## Theorems -/

namespace S3A.Undo

/-- After `flushUnusedRedos`, the leftmost remaining action (if any) has
`treatAsUndo = True`, so `canRedo` is `False`. -/
theorem canRedoL_flush {σ : Type} (l : List (FRAction σ)) :
    canRedoL (flushUnusedRedosL l) = false := by
  induction l with
  | nil => rfl
  | cons a t ih =>
    by_cases h : a.treatAsUndo
    · simp [flushUnusedRedosL, List.dropWhile_cons, h, canRedoL]
    · simpa [flushUnusedRedosL, List.dropWhile_cons, h] using ih

/-- `flushUnusedRedos` is a no-op on a deque whose actions are all in the
done (`treatAsUndo`) state. -/
theorem flush_of_all_done {σ : Type} (l : List (FRAction σ))
    (h : ∀ a ∈ l, a.treatAsUndo = true) : flushUnusedRedosL l = l := by
  cases l with
  | nil => rfl
  | cons a t => simp [flushUnusedRedosL, List.dropWhile_cons, h a (List.mem_cons_self a t)]

/-- Running a wrapped undoable with a fresh base action: the action is
appended at the right end in done state, its do block runs, and the deque is
flushed. -/
theorem performActionL_base {σ : Type} (l : List (FRAction σ)) (dE uE : σ → σ) (s : σ) :
    performActionL l (.base dE uE false false) s =
      .ok (flushUnusedRedosL (l ++ [.base dE uE true true]), dE s) := by
  simp [performActionL, redoL, canRedoL, rotateLeft1, processActL,
    List.getLast?_concat, FRAction.doAction, FRAction.treatAsUndo,
    List.dropLast_concat, Except.map]

/-- Evaluating a fold of flag updates. -/
theorem foldl_update_apply (idxs : List Nat) (s : FlagState) (b : Bool) (j : Nat) :
    (idxs.foldl (fun t i => Function.update t i b) s) j = if j ∈ idxs then b else s j := by
  induction idxs generalizing s with
  | nil => simp
  | cons i rest ih =>
    simp only [List.foldl_cons, ih, List.mem_cons]
    by_cases hj : j ∈ rest
    · simp [hj]
    · by_cases hji : j = i
      · subst hji; simp [hj, Function.update_apply]
      · simp [hj, hji, Function.update_apply]

/-- One `grpAct` loop over done flag actions: each buffered `act.do()`
dispatches to `backward`, running the undo block, clearing `treatAsUndo` and
dropping the runner. -/
theorem doActionList_doneFlags (idxs : List Nat) (s : FlagState) :
    FRAction.doActionList (idxs.map doneFlagAction) s =
      .ok (idxs.map flagAction, idxs.foldl (fun t i => Function.update t i false) s) := by
  induction idxs generalizing s with
  | nil => rfl
  | cons i rest ih =>
    simp [FRAction.doActionList, doneFlagAction, flagAction, mkFlagAction,
      FRAction.doAction, ih, Except.map]

/-- One `grpAct` loop over undone flag actions: each buffered `act.do()`
dispatches to `forward`, re-running the do block. -/
theorem doActionList_freshFlags (idxs : List Nat) (s : FlagState) :
    FRAction.doActionList (idxs.map flagAction) s =
      .ok (idxs.map doneFlagAction, idxs.foldl (fun t i => Function.update t i true) s) := by
  induction idxs generalizing s with
  | nil => rfl
  | cons i rest ih =>
    simp [FRAction.doActionList, doneFlagAction, flagAction, mkFlagAction,
      FRAction.doAction, ih, Except.map]

/-- Performing fresh flag actions inside a `group` body builds the buffer in
chronological order, each buffered action ending in done state. -/
theorem groupBody_freshFlags (idxs : List Nat) :
    ∀ (buf : List (FRAction FlagState)) (s : FlagState),
      (∀ a ∈ buf, a.treatAsUndo = true) →
      groupBody (idxs.map flagAction) buf s =
        .ok (buf ++ idxs.map doneFlagAction,
          idxs.foldl (fun t i => Function.update t i true) s) := by
  induction idxs with
  | nil => intro buf s _; simp [groupBody]
  | cons i rest ih =>
    intro buf s hb
    have hall : ∀ a ∈ buf ++ [FRAction.base (σ := FlagState)
        (fun t => Function.update t i true) (fun t => Function.update t i false) true true],
        a.treatAsUndo = true := by
      intro a ha
      rcases List.mem_append.1 ha with h | h
      · exact hb a h
      · simp only [List.mem_singleton] at h; subst h; rfl
    simp only [List.map_cons, groupBody, flagAction, mkFlagAction]
    rw [performActionL_base, flush_of_all_done _ hall]
    simp only [ih _ _ hall, doneFlagAction, mkFlagAction, List.append_assoc,
      List.singleton_append, List.foldl_cons]

/-- C3 (amended).  For every `N`, performing `N` flag-setting actions inside
`FRActionStack.group` and then calling `undo` once re-runs every buffered
action's `do()` in order — each dispatches to its undo block, so none of the
`N` sub-effects remain.  However, the compound action's `forward` body left
`treatAsUndo = True`, so after the undo `canRedo` is `False` and `redo()`
raises `FRUndoStackError('Nothing to redo')`; the compound action instead
stays undoable, and a *second* `undo` re-runs every buffered `do()`,
restoring all `N` effects. -/
theorem group_atomic_undo_redo (N : Nat) :
    ∃ (st1 : FRActionStack FlagState) (s1 : FlagState),
      FRActionStack.group ⟨[], [], none⟩ ((List.range N).map flagAction) flagsOff
          = .ok (st1, s1)
      ∧ (∀ i, i < N → s1 i = true)
      ∧ ∃ st2 s2, st1.undo s1 = .ok (st2, s2)
        ∧ (∀ i, i < N → s2 i = false)
        ∧ st2.canRedo = false
        ∧ st2.redo s2 = .error .nothingToRedo
        ∧ ∃ st3 s3, st2.undo s2 = .ok (st3, s3) ∧ (∀ i, i < N → s3 i = true) := by
  refine ⟨⟨[.compound ((List.range N).map doneFlagAction) true false], [], none⟩,
    (List.range N).foldl (fun t i => Function.update t i true) flagsOff, ?_, ?_, ?_⟩
  · simp [FRActionStack.group, groupBody_freshFlags (List.range N) [] flagsOff (by simp),
      Except.map]
  · intro i hi
    simp [foldl_update_apply, List.mem_range, hi]
  · refine ⟨⟨[.compound ((List.range N).map flagAction) true true], [], none⟩,
      (List.range N).foldl (fun t i => Function.update t i false)
        ((List.range N).foldl (fun t i => Function.update t i true) flagsOff),
      ?_, ?_, ?_, ?_, ?_⟩
    · simp [FRActionStack.undo, undoL, canUndoL, processActL, FRAction.treatAsUndo,
        FRAction.doAction, doActionList_doneFlags, rotateRight1, Except.map]
    · intro i hi
      simp [foldl_update_apply, List.mem_range, hi]
    · rfl
    · rfl
    · refine ⟨⟨[.compound ((List.range N).map doneFlagAction) true true], [], none⟩,
        (List.range N).foldl (fun t i => Function.update t i true)
          ((List.range N).foldl (fun t i => Function.update t i false)
            ((List.range N).foldl (fun t i => Function.update t i true) flagsOff)),
        ?_, ?_⟩
      · simp [FRActionStack.undo, undoL, canUndoL, processActL, FRAction.treatAsUndo,
          FRAction.doAction, doActionList_freshFlags, rotateRight1, Except.map]
      · intro i hi
        simp [foldl_update_apply, List.mem_range, hi]

/-- C3 (counterexample).  Concretely with `N = 2`: the group of two
flag-setting actions sets both flags; a single `undo` clears both flags (the
undo half of the claim holds), but afterwards `canRedo` is `False` and
`redo` raises `FRUndoStackError('Nothing to redo')` instead of restoring
the two effects — refuting the redo half of the claim. -/
theorem group_redo_unavailable_cex :
    (((FRActionStack.group (⟨[], [], none⟩ : FRActionStack FlagState)
          [flagAction 0, flagAction 1] flagsOff).bind
        (fun p => p.1.undo p.2)).bind (fun p => p.1.redo p.2)) = .error .nothingToRedo
    ∧ ((FRActionStack.group (⟨[], [], none⟩ : FRActionStack FlagState)
          [flagAction 0, flagAction 1] flagsOff).bind
        (fun p => p.1.undo p.2)).map (fun p => (p.1.canRedo, p.2 0, p.2 1))
        = .ok (false, false, false)
    ∧ (FRActionStack.group (⟨[], [], none⟩ : FRActionStack FlagState)
          [flagAction 0, flagAction 1] flagsOff).map (fun p => (p.2 0, p.2 1))
        = .ok (true, true) :=
  ⟨rfl, rfl, rfl⟩

/-- C4.  Whenever redos are pending (`canRedo` is `True`), performing any new
undoable action succeeds and leaves `canRedo = False`: the wrapper appends
the fresh action, `redo` runs it, and `flushUnusedRedos` discards every
pending redo at the left end of the deque. -/
theorem new_action_flushes_redos {σ : Type} (st : FRActionStack σ) (s : σ)
    (dE uE : σ → σ) (_h : st.canRedo = true) :
    ∃ st' s', st.performAction (.base dE uE false false) s = .ok (st', s')
      ∧ st'.canRedo = false := by
  refine ⟨{ st with
      actions := flushUnusedRedosL (st.actions ++ [.base dE uE true true]) },
    dE s, ?_, ?_⟩
  · simp [FRActionStack.performAction, performActionL_base, Except.map]
  · simp [FRActionStack.canRedo, canRedoL_flush]

/-- Witness for C4: a stack holding one undone action (`canRedo = True`);
after a new flag action, `canRedo` is `False`. -/
theorem new_action_flushes_redos_witness :
    (⟨[flagAction 5], [], none⟩ : FRActionStack FlagState).canRedo = true
    ∧ ∃ st' s',
      (⟨[flagAction 5], [], none⟩ : FRActionStack FlagState).performAction
          (flagAction 0) flagsOff = .ok (st', s')
        ∧ st'.canRedo = false :=
  ⟨rfl, new_action_flushes_redos _ _ _ _ rfl⟩

/-- C9.  The savepoint machinery reads the `undos` deque, which no code path
ever appends to (`undoable` pushes onto `actions`), so:
* on a fresh stack with *no savepoint set*, `hasChanged` returns `False`
  (the claim and the class docstring say it is always `True` then):
  `canUndo` is `False`, so both `_savepoint` and `cmpAction` are `EMPTY` and
  `EMPTY is not EMPTY` is `False`;
* after one undoable action (`canUndo = True`), both `setSavepoint` and
  `hasChanged` evaluate `self.undos[-1]` on the still-empty `undos` deque
  and raise `IndexError` — so `hasChanged` is not `False` after
  `setSavepoint`, nor `True` after a new action; it does not compare against
  the most recent undo-stack entry at all. -/
theorem savepoint_tracking_broken :
    (FRActionStack.hasChanged (⟨[], [], none⟩ : FRActionStack FlagState)) = .ok false
    ∧ ((⟨[], [], none⟩ : FRActionStack FlagState).performAction (flagAction 0)
        flagsOff).map (fun p => p.1.canUndo) = .ok true
    ∧ ((⟨[], [], none⟩ : FRActionStack FlagState).performAction (flagAction 0)
        flagsOff).bind (fun p => (p.1.setSavepoint).map (fun _ => true))
        = .error .indexError
    ∧ ((⟨[], [], none⟩ : FRActionStack FlagState).performAction (flagAction 0)
        flagsOff).bind (fun p => p.1.hasChanged) = .error .indexError :=
  ⟨rfl, rfl, rfl, rfl⟩

end S3A.Undo

namespace S3A.ProcWrap

/-- C1.  For any processor, image and previous component mask, if the
processor run raises then `FRImgProcWrapper.run` does not propagate the
exception: it warns and returns the previous component mask unchanged. -/
theorem run_exception_warns_and_returns_prev_mask
    (processorRun : Mask → Bool → Except String Mask) (img : Image) (m : Mask)
    (e : String) (h : processorRun m false = .error e) :
    FRImgProcWrapper.run processorRun (some img) (some m) = .ok ⟨m, true⟩ := by
  simp [FRImgProcWrapper.run, h]

/-- Witness for C1: a processor whose only stage raises. -/
theorem run_exception_warns_and_returns_prev_mask_witness :
    FRImgProcWrapper.run (fun _ _ => .error "stage blew up") (some [[0]])
      (some [[true, false]]) = .ok ⟨[[true, false]], true⟩ :=
  run_exception_warns_and_returns_prev_mask _ _ _ "stage blew up" rfl

end S3A.ProcWrap

namespace S3A.TableField

/-- C10.  `runOnComponent` always hands back the module `procCache` with its
pre-call contents (the `finally` block restores the copy on every exit
path), and the returned component keeps its original vertices whenever the
image is absent, the vertices are empty, or the processor run raises. -/
theorem runOnComponent_cache_restored_and_verts_preserved
    {ι κ V M : Type} (isEmptyV : V → Bool) (fromBinaryMask : M → V)
    (procRun : ι → κ → Except Unit (M × κ)) (image : Option ι) (verts : V)
    (cache : κ) :
    (runOnComponent isEmptyV fromBinaryMask procRun image verts cache).1 = cache
    ∧ (image = none →
        (runOnComponent isEmptyV fromBinaryMask procRun image verts cache).2 = verts)
    ∧ (isEmptyV verts = true →
        (runOnComponent isEmptyV fromBinaryMask procRun image verts cache).2 = verts)
    ∧ (∀ img e, image = some img → procRun img cache = .error e →
        (runOnComponent isEmptyV fromBinaryMask procRun image verts cache).2 = verts) := by
  refine ⟨?_, ?_, ?_, ?_⟩
  · cases image with
    | none => rfl
    | some img =>
      by_cases hv : isEmptyV verts
      · simp [runOnComponent, hv]
      · cases hrun : procRun img cache with
        | error e => simp [runOnComponent, hv, hrun]
        | ok p => simp [runOnComponent, hv, hrun]
  · intro h; subst h; rfl
  · intro hv
    cases image with
    | none => rfl
    | some img => simp [runOnComponent, hv]
  · intro img e himg hrun
    subst himg
    by_cases hv : isEmptyV verts
    · simp [runOnComponent, hv]
    · simp [runOnComponent, hv, hrun]

/-- Witness for C10: a non-empty component on a present image whose
processor run raises — the cache comes back unchanged and the vertices are
the originals. -/
theorem runOnComponent_cache_restored_and_verts_preserved_witness :
    (runOnComponent (fun _ => false) (fun m => m)
        (fun _ _ => (.error () : Except Unit (Nat × Nat))) (some 0) 7 3).1 = 3
    ∧ (runOnComponent (fun _ => false) (fun m => m)
        (fun _ _ => (.error () : Except Unit (Nat × Nat))) (some 0) 7 3).2 = 7 :=
  ⟨(runOnComponent_cache_restored_and_verts_preserved _ _ _ _ _ _).1,
   (runOnComponent_cache_restored_and_verts_preserved _ _ _ _ _ _).2.2.2 0 () rfl rfl⟩

end S3A.TableField

namespace S3A.ImageProc

/-- `clipInt` never goes below the lower bound. -/
theorem clipInt_lower (v lo hi : Int) : lo ≤ clipInt v lo hi :=
  le_max_left _ _

/-- `clipInt` never exceeds the upper bound, when the bounds are ordered. -/
theorem clipInt_upper (v lo hi : Int) (h : lo ≤ hi) : clipInt v lo hi ≤ hi :=
  max_le h (min_le_right _ _)

/-- C8.  Whatever vertex collection the `reference` branch of
`crop_to_local_area` selects — including a viewbox or ROI far outside the
image — and whatever margin is added, the resulting `boundSlices` are
clipped to the image: row start/stop within `[0, h]` and column start/stop
within `[0, w]`, so no negative or out-of-range slice is produced. -/
theorem crop_bounds_clipped_to_image (h w : Nat) (allVerts : List (Int × Int))
    (margin : Int) (sl : (Int × Int) × (Int × Int))
    (hsl : cropToLocalAreaBoundSlices h w allVerts margin = some sl) :
    0 ≤ sl.1.1 ∧ sl.1.2 ≤ (h : Int) ∧ 0 ≤ sl.2.1 ∧ sl.2.2 ≤ (w : Int) := by
  cases allVerts with
  | nil => simp [cropToLocalAreaBoundSlices, getCroppedImageBounds] at hsl
  | cons v vs =>
    simp only [cropToLocalAreaBoundSlices, getCroppedImageBounds, Option.map_some',
      Option.some.injEq] at hsl
    subst hsl
    refine ⟨?_, ?_, ?_, ?_⟩
    · exact clipInt_lower _ _ _
    · exact clipInt_upper _ _ _ (Int.ofNat_nonneg h)
    · exact clipInt_lower _ _ _
    · exact clipInt_upper _ _ _ (Int.ofNat_nonneg w)

/-- Witness for C8: a 5×5 image with a single reference vertex far outside
the image; the slices come back clipped into range. -/
theorem crop_bounds_clipped_to_image_witness :
    cropToLocalAreaBoundSlices 5 5 [(-100, 300)] 2 = some ((5, 5), (0, 0))
    ∧ (0 ≤ (5 : Int) ∧ (5 : Int) ≤ (5 : Int) ∧ 0 ≤ (0 : Int) ∧ (0 : Int) ≤ (5 : Int)) :=
  ⟨by decide, crop_bounds_clipped_to_image 5 5 [(-100, 300)] 2 ((5, 5), (0, 0)) (by decide)⟩

end S3A.ImageProc


namespace S3A.AlgClctn

/-- `sel` with the `top` flag reads `topProcs`. -/
theorem Collection.sel_true (c : Collection) : c.sel true = c.topProcs := rfl

/-- `sel` without the `top` flag reads `primitiveProcs`. -/
theorem Collection.sel_false (c : Collection) : c.sel false = c.primitiveProcs := rfl

/-- Updating a key makes it present with the new value. -/
theorem Registry.find_update_self (d : Registry) (k : String) (v : RegVal) :
    (Registry.update d k v).find k = some v := by
  induction d with
  | nil => simp [Registry.update, Registry.find]
  | cons e rest ih =>
    by_cases h : e.1 == k
    · simp [Registry.update, Registry.find, h]
    · simp only [Registry.update, h, Bool.false_eq_true, if_false]
      simpa [Registry.find, List.find?, h] using ih

/-- Updating one key leaves every other key's binding unchanged. -/
theorem Registry.find_update_ne (d : Registry) (k k' : String) (v : RegVal)
    (h : k' ≠ k) : (Registry.update d k v).find k' = d.find k' := by
  have hkk : (k == k') = false := beq_eq_false_iff_ne.2 (Ne.symm h)
  induction d with
  | nil => simp [Registry.update, Registry.find, List.find?, hkk]
  | cons e rest ih =>
    by_cases he : e.1 == k
    · have he' : e.1 = k := by simpa using he
      simp [Registry.update, Registry.find, List.find?, he, he', hkk]
    · simp only [Registry.update, he, Bool.false_eq_true, if_false]
      by_cases he2 : e.1 == k'
      · simp [Registry.find, List.find?, he2]
      · simpa [Registry.find, List.find?, he2] using ih

/-- Reading back the registry that `setSel` wrote. -/
theorem sel_setSel_same (c : Collection) (top : Bool) (d : Registry) :
    (c.setSel top d).sel top = d := by
  cases top <;> simp [Collection.sel, Collection.setSel]

/-- `setSel` on one flag leaves the other registry unchanged. -/
theorem sel_setSel_ne (c : Collection) (top b : Bool) (d : Registry) (h : top ≠ b) :
    (c.setSel top d).sel b = c.sel b := by
  cases top <;> cases b <;> simp_all [Collection.sel, Collection.setSel]

mutual
/-- With `force=False`, `addProcess` never changes an existing binding in
either registry: the update is skipped when the name is present, and
otherwise it only adds keys that are absent. -/
theorem addProcess_false_preserves_find (p : ProcStage) :
    ∀ (c : Collection) (top b : Bool) (k : String) (v : RegVal),
      (c.sel b).find k = some v →
      ((addProcess c p top false).sel b).find k = some v := by
  intro c top b k v h
  rw [addProcess]
  simp only [Bool.false_or]
  refine addProcessList_false_preserves_find p.stages _ b k v ?_
  cases hnone : ((c.sel top).find p.name).isNone with
  | true =>
    simp only [hnone, if_true]
    by_cases htb : top = b
    · subst htb
      rw [sel_setSel_same]
      have hk : k ≠ p.name := by
        intro hk; subst hk
        rw [h] at hnone; simp at hnone
      rw [Registry.find_update_ne _ _ _ _ hk]
      exact h
    · rw [sel_setSel_ne _ _ _ _ htb]; exact h
  | false =>
    simp only [hnone, Bool.false_eq_true, if_false]
    by_cases htb : top = b
    · subst htb; rw [sel_setSel_same]; exact h
    · rw [sel_setSel_ne _ _ _ _ htb]; exact h
termination_by sizeOf p + 1
decreasing_by cases p <;> simp [ProcStage.stages] <;> omega

/-- List version of `addProcess_false_preserves_find`. -/
theorem addProcessList_false_preserves_find (l : List ProcStage) :
    ∀ (c : Collection) (b : Bool) (k : String) (v : RegVal),
      (c.sel b).find k = some v →
      ((addProcessList c l false).sel b).find k = some v := by
  intro c b k v h
  match l with
  | [] => rw [addProcessList]; exact h
  | st :: rest =>
    rw [addProcessList]
    exact addProcessList_false_preserves_find rest _ b k v
      (addProcess_false_preserves_find st c false b k v h)
termination_by sizeOf l
decreasing_by
  all_goals simp
  all_goals have h1 : 1 ≤ sizeOf rest := by cases rest <;> simp <;> omega
  all_goals omega
end

mutual
/-- A non-top `addProcess` call never touches the `topProcs` registry. -/
theorem addProcess_false_top_eq (p : ProcStage) :
    ∀ (c : Collection) (force : Bool),
      (addProcess c p false force).topProcs = c.topProcs := by
  intro c force
  rw [addProcess]
  rw [addProcessList_false_top_eq p.stages]
  cases hc : (force || ((c.sel false).find p.name).isNone) <;>
    simp [hc, Collection.setSel]
termination_by sizeOf p + 1
decreasing_by cases p <;> simp [ProcStage.stages] <;> omega

/-- List version of `addProcess_false_top_eq`. -/
theorem addProcessList_false_top_eq (l : List ProcStage) :
    ∀ (c : Collection) (force : Bool),
      (addProcessList c l force).topProcs = c.topProcs := by
  intro c force
  match l with
  | [] => rw [addProcessList]
  | st :: rest =>
    rw [addProcessList, addProcessList_false_top_eq rest,
      addProcess_false_top_eq st]
termination_by sizeOf l
decreasing_by
  all_goals simp
  all_goals have h1 : 1 ≤ sizeOf rest := by cases rest <;> simp <;> omega
  all_goals omega
end

mutual
/-- A non-top `addProcess` call only writes `primitiveProcs` keys drawn from
the process's own name and its recursive sub-stage names; any other key's
binding is untouched, even with `force=True`. -/
theorem addProcess_prim_find_of_not_mem (p : ProcStage) :
    ∀ (c : Collection) (force : Bool) (k : String),
      k ∉ p.allNames →
      ((addProcess c p false force).primitiveProcs).find k =
        c.primitiveProcs.find k := by
  intro c force k hk
  have hkname : k ≠ p.name := by
    intro hh; subst hh
    cases p <;> simp [ProcStage.allNames, ProcStage.name] at hk
  have hksub : k ∉ allNamesList p.stages := by
    intro hmem
    cases p with
    | atomic n tok => simp [ProcStage.stages, allNamesList] at hmem
    | nested n sts =>
      simp only [ProcStage.stages] at hmem
      exact hk (by simp [ProcStage.allNames, hmem])
  rw [addProcess]
  have hrest := addProcessList_prim_find_of_not_mem p.stages
  cases hc : (force || ((c.sel false).find p.name).isNone) with
  | true =>
    simp only [hc, if_true]
    rw [hrest _ force k hksub]
    have hset : (c.setSel false ((c.sel false).update p.name p.saveVal)).primitiveProcs
        = (c.sel false).update p.name p.saveVal := rfl
    rw [hset, Registry.find_update_ne _ _ _ _ hkname, Collection.sel_false]
  | false =>
    simp only [hc, Bool.false_eq_true, if_false]
    rw [hrest _ force k hksub]
    rfl
termination_by sizeOf p + 1
decreasing_by cases p <;> simp [ProcStage.stages] <;> omega

/-- List version of `addProcess_prim_find_of_not_mem`. -/
theorem addProcessList_prim_find_of_not_mem (l : List ProcStage) :
    ∀ (c : Collection) (force : Bool) (k : String),
      k ∉ allNamesList l →
      ((addProcessList c l force).primitiveProcs).find k =
        c.primitiveProcs.find k := by
  intro c force k hk
  match l with
  | [] => rw [addProcessList]
  | st :: rest =>
    rw [addProcessList]
    have hst : k ∉ st.allNames := fun hmem =>
      hk (by simp [allNamesList, hmem])
    have hrest : k ∉ allNamesList rest := fun hmem =>
      hk (by simp [allNamesList, hmem])
    rw [addProcessList_prim_find_of_not_mem rest _ force k hrest,
      addProcess_prim_find_of_not_mem st _ force k hst]
termination_by sizeOf l
decreasing_by
  all_goals simp
  all_goals have h1 : 1 ≤ sizeOf rest := by cases rest <;> simp <;> omega
  all_goals omega
end

/-- C5.  If a process's name is already registered in the targeted namespace
(top or primitive), then `addProcess` with `force=False` leaves that name's
registered definition unchanged, while `force=True` replaces it with the
newly saved definition (for a primitive-namespace registration, provided the
process does not reuse its own name among its recursive sub-stages, which
are re-registered after the update). -/
theorem addProcess_existing_name_semantics (c : Collection) (p : ProcStage)
    (top : Bool) (d : RegVal) (hreg : (c.sel top).find p.name = some d) :
    ((addProcess c p top false).sel top).find p.name = some d
    ∧ ((top = true ∨ p.name ∉ p.subNames) →
        ((addProcess c p top true).sel top).find p.name = some p.saveVal) := by
  constructor
  · exact addProcess_false_preserves_find p c top top p.name d hreg
  · intro hside
    rw [addProcess]
    simp only [Bool.true_or, if_true]
    cases top with
    | true =>
      rw [Collection.sel_true, addProcessList_false_top_eq p.stages]
      have hset : (c.setSel true ((c.sel true).update p.name p.saveVal)).topProcs
          = (c.sel true).update p.name p.saveVal := rfl
      rw [hset, Registry.find_update_self]
    | false =>
      have hnot : p.name ∉ p.subNames := by
        rcases hside with hh | hh
        · exact absurd hh (by simp)
        · exact hh
      rw [Collection.sel_false,
        addProcessList_prim_find_of_not_mem p.stages _ true p.name hnot]
      have hset : (c.setSel false ((c.sel false).update p.name p.saveVal)).primitiveProcs
          = (c.sel false).update p.name p.saveVal := rfl
      rw [hset, Registry.find_update_self]

/-- Witness for C5: the top registry already holds `"stage"`; re-registering
an atomic process of the same name is a no-op without `force` and replaces
the binding with `force`. -/
theorem addProcess_existing_name_semantics_witness :
    ((addProcess ⟨[("stage", .procObj 0)], []⟩ (.atomic "stage" 5) true false).sel
        true).find "stage" = some (.procObj 0)
    ∧ ((addProcess ⟨[("stage", .procObj 0)], []⟩ (.atomic "stage" 5) true true).sel
        true).find "stage" = some (.procObj 5) :=
  ⟨(addProcess_existing_name_semantics ⟨[("stage", .procObj 0)], []⟩
      (.atomic "stage" 5) true (.procObj 0)
      (by decide)).1,
   (addProcess_existing_name_semantics ⟨[("stage", .procObj 0)], []⟩
      (.atomic "stage" 5) true (.procObj 0)
      (by decide)).2 (Or.inl rfl)⟩

end S3A.AlgClctn

namespace S3A.AlgClctn

/-- If every configured module fails to resolve the name, the module search
returns `None`. -/
theorem searchModulesForProc_go_none {V : Type} (env : ResolveEnv V)
    (procName : String) (mods : List String)
    (h : ∀ m ∈ mods, env.moduleProc m procName = none) :
    searchModulesForProc.go env procName mods = none := by
  induction mods with
  | nil => rfl
  | cons m rest ih =>
    simp only [searchModulesForProc.go, h m (List.mem_cons_self m rest)]
    exact ih fun m' hm' => h m' (List.mem_cons_of_mem _ hm')

/-- The module search returns the hit of the first module that resolves the
name. -/
theorem searchModulesForProc_go_first {V : Type} (env : ResolveEnv V)
    (procName : String) (mods₁ : List String) (m : String) (mods₂ : List String)
    (v : V) (h₁ : ∀ m' ∈ mods₁, env.moduleProc m' procName = none)
    (h₂ : env.moduleProc m procName = some v) :
    searchModulesForProc.go env procName (mods₁ ++ m :: mods₂) = some v := by
  induction mods₁ with
  | nil => simp [searchModulesForProc.go, h₂]
  | cons m' rest ih =>
    simp only [List.cons_append, searchModulesForProc.go,
      h₁ m' (List.mem_cons_self m' rest)]
    exact ih fun x hx => h₁ x (List.mem_cons_of_mem _ hx)

/-- C6.  `parseProcName`'s resolution behaviour:
* if the name is in neither registry, is not an importable qualified name,
  and no configured extension module provides it, the call raises
  `ValueError` whose message names the exact unresolved symbol;
* otherwise the first match in resolution order wins: the registries in the
  order selected by `topFirst` (top first when set, primitive first when
  not, with the second-searched registry as fallback when the first misses),
  then the qualified-name lookup, then the first configured module that
  resolves the name. -/
theorem parseProcName_resolution_order {V : Type} (env : ResolveEnv V)
    (procName : String) :
    ((lookupProc env.topProcs procName = none) →
     (lookupProc env.primitiveProcs procName = none) →
     (env.qualname procName = none) →
     (∀ m ∈ env.includeModules, env.moduleProc m procName = none) →
     ∀ topFirst, parseProcNameResolve env procName topFirst =
       .error ("Process \"" ++ procName ++ "\" not recognized"))
    ∧ (∀ v, lookupProc env.topProcs procName = some v →
        parseProcNameResolve env procName true = .ok v)
    ∧ (∀ v, lookupProc env.primitiveProcs procName = some v →
        parseProcNameResolve env procName false = .ok v)
    ∧ (lookupProc env.topProcs procName = none →
       ∀ v, lookupProc env.primitiveProcs procName = some v →
         parseProcNameResolve env procName true = .ok v)
    ∧ (lookupProc env.primitiveProcs procName = none →
       ∀ v, lookupProc env.topProcs procName = some v →
         parseProcNameResolve env procName false = .ok v)
    ∧ (lookupProc env.topProcs procName = none →
       lookupProc env.primitiveProcs procName = none →
       ∀ v, env.qualname procName = some v →
         ∀ topFirst, parseProcNameResolve env procName topFirst = .ok v)
    ∧ (lookupProc env.topProcs procName = none →
       lookupProc env.primitiveProcs procName = none →
       env.qualname procName = none →
       ∀ (v : V) (mods₁ : List String) (m : String) (mods₂ : List String),
         env.includeModules = mods₁ ++ m :: mods₂ →
         (∀ m' ∈ mods₁, env.moduleProc m' procName = none) →
         env.moduleProc m procName = some v →
         ∀ topFirst, parseProcNameResolve env procName topFirst = .ok v) := by
  refine ⟨?_, ?_, ?_, ?_, ?_, ?_, ?_⟩
  · intro htop hprim hqual hmods topFirst
    have hsearch : searchModulesForProc env procName = none :=
      searchModulesForProc_go_none env procName env.includeModules hmods
    cases topFirst <;>
      simp [parseProcNameResolve, htop, hprim, hqual, hsearch]
  · intro v htop
    simp [parseProcNameResolve, htop]
  · intro v hprim
    simp [parseProcNameResolve, hprim]
  · intro htop v hprim
    simp [parseProcNameResolve, htop, hprim]
  · intro hprim v htop
    simp [parseProcNameResolve, hprim, htop]
  · intro htop hprim v hqual topFirst
    cases topFirst <;> simp [parseProcNameResolve, htop, hprim, hqual]
  · intro htop hprim hqual v mods₁ m mods₂ hmods hnone hsome topFirst
    have hsearch : searchModulesForProc env procName = some v := by
      unfold searchModulesForProc
      rw [hmods]
      exact searchModulesForProc_go_first env procName mods₁ m mods₂ v hnone hsome
    cases topFirst <;>
      simp [parseProcNameResolve, htop, hprim, hqual, hsearch]

/-- Witness for C6: in an environment with one top process, one primitive
process, one configured module and no importable names, resolving an
unknown name raises the descriptive error naming it, resolving the
registered top name returns its process, and a name registered only as a
primitive still resolves with `topFirst` through the second-registry
fallback. -/
theorem parseProcName_resolution_order_witness :
    parseProcNameResolve
        (⟨[("known", 1)], [("prim", 2)], ["extmodule"], fun _ => none,
          fun _ _ => none⟩ : ResolveEnv Nat) "NonexistentStage" true
      = .error ("Process \"" ++ "NonexistentStage" ++ "\" not recognized")
    ∧ parseProcNameResolve
        (⟨[("known", 1)], [("prim", 2)], ["extmodule"], fun _ => none,
          fun _ _ => none⟩ : ResolveEnv Nat) "known" true = .ok 1
    ∧ parseProcNameResolve
        (⟨[("known", 1)], [("prim", 2)], ["extmodule"], fun _ => none,
          fun _ _ => none⟩ : ResolveEnv Nat) "prim" true = .ok 2 :=
  ⟨(parseProcName_resolution_order
      (⟨[("known", 1)], [("prim", 2)], ["extmodule"], fun _ => none,
        fun _ _ => none⟩ : ResolveEnv Nat) "NonexistentStage").1 (by decide)
      (by decide) rfl (by intro m _; rfl) true,
   (parseProcName_resolution_order
      (⟨[("known", 1)], [("prim", 2)], ["extmodule"], fun _ => none,
        fun _ _ => none⟩ : ResolveEnv Nat) "known").2.1 1 (by decide),
   (parseProcName_resolution_order
      (⟨[("known", 1)], [("prim", 2)], ["extmodule"], fun _ => none,
        fun _ _ => none⟩ : ResolveEnv Nat) "prim").2.2.2.1 (by decide) 2
      (by decide)⟩

end S3A.AlgClctn

namespace S3A.ImageProc

/-- `cv.fillPoly` membership for the corner list of a 10×10 square: the
pixels between the corners, inclusive. -/
theorem fillPolyRect_square (x0 y0 r c : Nat) :
    fillPolyRect [((x0 : Int), (y0 : Int)), ((x0 : Int) + 9, (y0 : Int)),
        ((x0 : Int) + 9, (y0 : Int) + 9), ((x0 : Int), (y0 : Int) + 9)] r c
      = decide (y0 ≤ r ∧ r ≤ y0 + 9 ∧ x0 ≤ c ∧ c ≤ x0 + 9) := by
  simp only [fillPolyRect, List.map_cons, List.map_nil, List.foldl_cons,
    List.foldl_nil]
  rw [decide_eq_decide]
  omega

/-- Pointwise description of the history mask produced by `format_vertices`
for a single foreground square over an empty history. -/
theorem format_vertices_square_hist (ctfb : XYVertices → XYVertices)
    (h w x0 y0 : Nat) (old : CompMask) (cacheMask : HistMask)
    (firstRun keep ub : Bool)
    (hstart : firstRun = true ∨ npAny h w cacheMask = false) (r c : Nat) :
    (format_vertices fillPolyRect ctfb h w (squareXY x0 y0) emptyXY old firstRun
        cacheMask ub keep).historyMask r c
      = if y0 ≤ r ∧ r ≤ y0 + 9 ∧ x0 ≤ c ∧ c ≤ x0 + 9 then FGND else UNSPEC := by
  have hcond : (firstRun || !keep || !npAny h w cacheMask) = true := by
    rcases hstart with hh | hh <;> simp [hh]
  simp [format_vertices, hcond, squareXY, emptyXY, XYVertices.empty,
    fillPolyRect_square, UNSPEC, FGND]

/-- A mask that is the foreground value exactly on an in-bounds 10×10 square
and the unspecified value elsewhere has exactly 100 foreground pixels. -/
theorem card_filter_square (h w x0 y0 : Nat) (M : HistMask)
    (hx : x0 + 9 < w) (hy : y0 + 9 < h)
    (hpt : ∀ r c, M r c =
      if y0 ≤ r ∧ r ≤ y0 + 9 ∧ x0 ≤ c ∧ c ≤ x0 + 9 then FGND else UNSPEC) :
    ((Finset.range h ×ˢ Finset.range w).filter fun pr => M pr.1 pr.2 = FGND).card
      = 100 := by
  have hcongr : ((Finset.range h ×ˢ Finset.range w).filter fun pr => M pr.1 pr.2 = FGND)
      = (Finset.range h ×ˢ Finset.range w).filter fun pr =>
          (y0 ≤ pr.1 ∧ pr.1 ≤ y0 + 9) ∧ (x0 ≤ pr.2 ∧ pr.2 ≤ x0 + 9) := by
    apply Finset.filter_congr
    intro pr _
    rw [hpt pr.1 pr.2]
    split
    case isTrue hin =>
      simp only [FGND, UNSPEC]
      exact ⟨fun _ => by omega, fun _ => by trivial⟩
    case isFalse hin =>
      simp only [FGND, UNSPEC]
      exact ⟨fun hcontra => by omega, fun hcontra => absurd (by omega) hin⟩
  rw [hcongr, Finset.filter_product (fun r => y0 ≤ r ∧ r ≤ y0 + 9)
    (fun c => x0 ≤ c ∧ c ≤ x0 + 9), Finset.card_product]
  have h1 : (Finset.range h).filter (fun r => y0 ≤ r ∧ r ≤ y0 + 9)
      = Finset.Icc y0 (y0 + 9) := by
    ext n; simp only [Finset.mem_filter, Finset.mem_range, Finset.mem_Icc]; omega
  have h2 : (Finset.range w).filter (fun c => x0 ≤ c ∧ c ≤ x0 + 9)
      = Finset.Icc x0 (x0 + 9) := by
    ext n; simp only [Finset.mem_filter, Finset.mem_range, Finset.mem_Icc]; omega
  rw [h1, h2, Nat.card_Icc, Nat.card_Icc]
  have e1 : y0 + 9 + 1 - y0 = 10 := by omega
  have e2 : x0 + 9 + 1 - x0 = 10 := by omega
  rw [e1, e2]

/-- C7.  Painting semantics of `format_vertices`:

1. (Scenario) Connected foreground vertices forming an in-bounds 10×10
   square, no background vertices, and an empty history (first run or empty
   `procCache`) produce a history mask that is the foreground value exactly
   on the square's 100 pixels and the unspecified value everywhere else.
2. (Overwrite) With foreground vertices present (and `useFullBoundary`
   off so the dense-boundary conversion does not interfere), the painted
   history stored into `procCache["mask"]` takes the foreground value on
   every pixel the rasterizer paints for the foreground vertices, the
   background value on pixels painted only by the (connected, non-empty)
   background vertices, and keeps the old cache value on unpainted pixels
   when the history is carried over; the returned history equals the stored
   one.
3. (Inversion) With only background vertices given, the semantics invert:
   `asForeground` is `False`, the downstream component mask is the
   complement of the input mask, the background vertices are handed on as
   the foreground ones (with an empty background), and the returned history
   is the stored mask with foreground/background labels swapped. -/
theorem format_vertices_painting_semantics :
    (∀ (ctfb : XYVertices → XYVertices) (h w x0 y0 : Nat) (old : CompMask)
       (cacheMask : HistMask) (firstRun keep ub : Bool),
       x0 + 9 < w → y0 + 9 < h →
       (firstRun = true ∨ npAny h w cacheMask = false) →
       (∀ r c, (format_vertices fillPolyRect ctfb h w (squareXY x0 y0) emptyXY old
           firstRun cacheMask ub keep).historyMask r c
         = if y0 ≤ r ∧ r ≤ y0 + 9 ∧ x0 ≤ c ∧ c ≤ x0 + 9 then FGND else UNSPEC)
       ∧ ((Finset.range h ×ˢ Finset.range w).filter fun pr =>
            (format_vertices fillPolyRect ctfb h w (squareXY x0 y0) emptyXY old
              firstRun cacheMask ub keep).historyMask pr.1 pr.2 = FGND).card = 100)
    ∧ (∀ (fill : FillFn) (ctfb : XYVertices → XYVertices) (h w : Nat)
         (fg bg : XYVertices) (old : CompMask) (firstRun keep : Bool)
         (cacheMask : HistMask),
       fg.connected = true → fg.empty = false →
       (∀ r c, fill fg.pts r c = true →
         (format_vertices fill ctfb h w fg bg old firstRun cacheMask false
           keep).cacheMaskOut r c = FGND)
       ∧ (∀ r c, bg.connected = true → bg.empty = false →
           fill bg.pts r c = true → fill fg.pts r c = false →
           (format_vertices fill ctfb h w fg bg old firstRun cacheMask false
             keep).cacheMaskOut r c = BGND)
       ∧ (firstRun = false → keep = true → npAny h w cacheMask = true →
           ∀ r c, fill fg.pts r c = false →
             (bg.empty = true ∨ bg.connected = false ∨ fill bg.pts r c = false) →
             (format_vertices fill ctfb h w fg bg old firstRun cacheMask false
               keep).cacheMaskOut r c = cacheMask r c)
       ∧ (format_vertices fill ctfb h w fg bg old firstRun cacheMask false
           keep).historyMask
         = (format_vertices fill ctfb h w fg bg old firstRun cacheMask false
           keep).cacheMaskOut)
    ∧ (∀ (fill : FillFn) (ctfb : XYVertices → XYVertices) (h w : Nat)
         (bg : XYVertices) (old : CompMask) (firstRun keep : Bool)
         (cacheMask : HistMask),
       bg.empty = false →
       (format_vertices fill ctfb h w emptyXY bg old firstRun cacheMask false
         keep).asForeground = false
       ∧ (format_vertices fill ctfb h w emptyXY bg old firstRun cacheMask false
           keep).foregroundVertices = bg
       ∧ (format_vertices fill ctfb h w emptyXY bg old firstRun cacheMask false
           keep).backgroundVertices = emptyXY
       ∧ (∀ r c, (format_vertices fill ctfb h w emptyXY bg old firstRun cacheMask
           false keep).oldComponentMask r c = !old r c)
       ∧ (∀ r c, (format_vertices fill ctfb h w emptyXY bg old firstRun cacheMask
             false keep).historyMask r c
           = (if (format_vertices fill ctfb h w emptyXY bg old firstRun cacheMask
                 false keep).cacheMaskOut r c = FGND then BGND
              else if (format_vertices fill ctfb h w emptyXY bg old firstRun
                  cacheMask false keep).cacheMaskOut r c = BGND then FGND
              else (format_vertices fill ctfb h w emptyXY bg old firstRun
                cacheMask false keep).cacheMaskOut r c))) := by
  refine ⟨?_, ?_, ?_⟩
  · intro ctfb h w x0 y0 old cacheMask firstRun keep ub hx hy hstart
    refine ⟨format_vertices_square_hist ctfb h w x0 y0 old cacheMask firstRun
      keep ub hstart, ?_⟩
    exact card_filter_square h w x0 y0 _ hx hy
      (format_vertices_square_hist ctfb h w x0 y0 old cacheMask firstRun keep ub
        hstart)
  · intro fill ctfb h w fg bg old firstRun keep cacheMask hconn hne
    refine ⟨?_, ?_, ?_, ?_⟩
    · intro r c hfill
      simp [format_vertices, hne, hconn, hfill]
    · intro r c hbgc hbgne hfillbg hfillfg
      simp [format_vertices, hne, hconn, hbgc, hbgne, hfillbg, hfillfg]
    · intro hfr hkeep hany r c hfillfg hbg
      rcases hbg with hb | hb | hb <;>
        simp [format_vertices, hne, hconn, hfr, hkeep, hany, hfillfg, hb] <;>
        split <;> simp [hb]
    · simp [format_vertices, hne]
  · intro fill ctfb h w bg old firstRun keep cacheMask hbg
    have hbg' : ¬bg.pts = [] := by
      intro hh
      rw [XYVertices.empty, hh] at hbg
      simp at hbg
    refine ⟨?_, ?_, ?_, ?_, ?_⟩ <;>
      simp [format_vertices, emptyXY, XYVertices.empty, hbg']

/-- Witness for C7: a 10×10 square at (1, 2) in a 12×12 first-run image has
exactly 100 foreground pixels in the history mask, and a background-only
call reports `asForeground = False`. -/
theorem format_vertices_painting_semantics_witness :
    ((Finset.range 12 ×ˢ Finset.range 12).filter fun pr =>
        (format_vertices fillPolyRect (fun v => v) 12 12 (squareXY 1 2) emptyXY
          (fun _ _ => false) true (fun _ _ => 0) false true).historyMask pr.1 pr.2
          = FGND).card = 100
    ∧ (format_vertices (fun _ _ _ => false) (fun v => v) 4 4 emptyXY
        { pts := [(1, 1)], connected := true } (fun _ _ => false) true
        (fun _ _ => 0) false true).asForeground = false := by
  constructor
  · exact (format_vertices_painting_semantics.1 (fun v => v) 12 12 1 2
      (fun _ _ => false) (fun _ _ => 0) true true false (by omega) (by omega)
      (Or.inl rfl)).2
  · exact (format_vertices_painting_semantics.2.2 (fun _ _ _ => false)
      (fun v => v) 4 4 { pts := [(1, 1)], connected := true } (fun _ _ => false)
      true true (fun _ _ => 0) (by simp [XYVertices.empty])).1

end S3A.ImageProc
